import Mathlib

/-!
Verification of the merge, index-conflict and file-history machinery of the
sourcecontrol repository, shallowly embedded in Lean.

Conventions of the embedding:
* `ObjectHash` (Go: a 40-hex SHA string / 20-byte digest) is modelled as `Nat`;
  the zero digest is `0`. Equality of digests is equality of the `Nat`s.
* Byte slices (`[]byte`) are modelled as `List Char` where textual structure
  matters (conflict markers) and `List Nat` otherwise.
* Object-store reads are modelled as total functions from digests to contents;
  storage errors are out of scope of the claims treated here.
* Go maps iterated with `range` have unspecified iteration order; where the
  source iterates such a map the embedding keeps a deterministic list and the
  fact is noted at the definition.
-/

namespace SC

/-- Object digests (Go `objects.ObjectHash`), abstracted to `Nat`.
The zero digest, marking "absent", is `0`. -/
abbrev ObjectHash := Nat

/-- Go `ObjectHash.IsZero`. -/
def ObjectHash.isZero (h : ObjectHash) : Bool := h == 0

/-- File modes a tree entry can carry (spec section 3: regular 0100644,
executable 0100755, symlink 0120000, directory 0040000, gitlink 0160000). -/
inductive EntryKind where
  | regular
  | executable
  | symlink
  | directory
  | gitlink
deriving DecidableEq

/-- A tree entry (Go `tree.TreeEntry`): mode, single-component name, digest. -/
structure TreeEntry where
  kind : EntryKind
  name : String
  sha : ObjectHash
deriving DecidableEq

/-- Modelled from the spec: `TreeEntry.IsDirectory` lives in the tree package,
which is not under src/; spec section 3 makes directory mode 0040000. -/
def TreeEntry.IsDirectory (e : TreeEntry) : Bool := e.kind == .directory

/-- Modelled from the spec: `TreeEntry.IsFile` lives in the tree package, which
is not under src/; the file modes of spec section 3 are regular, executable and
symlink. -/
def TreeEntry.IsFile (e : TreeEntry) : Bool :=
  e.kind == .regular || e.kind == .executable || e.kind == .symlink

/-- A commit (Go `commit.Commit`), reduced to the fields the claims use:
its tree digest and its ordered parent digests. -/
structure Commit where
  treeSHA : ObjectHash
  parentSHAs : List ObjectHash
deriving DecidableEq

/-! ## Whole-file content merge (pkg/merge/conflict.go, MergeContent) -/

/-- Go `MergeContent` (conflict.go lines 105-123): three-way merge of whole
file contents by byte equality. `none` models the `(nil, false)` conflict
return; `some c` models `(c, true)`. -/
def MergeContent (base ours theirs : List Nat) : Option (List Nat) :=
  if ours = theirs then some ours
  else if base = ours then some theirs
  else if base = theirs then some ours
  else none

/-! ## Conflict markers (pkg/merge/markers.go, CreateConflictMarkers) -/

/-- Newline termination as the Go code performs it: append a newline unless the
content already ends in one (`bytes.HasSuffix(s, "\n")`; false for empty s). -/
def ensureNL (s : List Char) : List Char :=
  if s.getLast? = some '\n' then s else s ++ ['\n']

/-- Go `CreateConflictMarkers` (markers.go lines 63-93). Labels are also byte
sequences; `String.data` turns the marker literals into their characters. -/
def CreateConflictMarkers (base ours theirs : List Char)
    (oursLabel theirsLabel : List Char) (diff3Style : Bool) : List Char :=
  (("<<<<<<< ").data ++ oursLabel ++ ['\n'])
  ++ ensureNL ours
  ++ (if diff3Style && !base.isEmpty then
        ("||||||| base").data ++ ['\n'] ++ ensureNL base
      else [])
  ++ (("=======").data ++ ['\n'])
  ++ ensureNL theirs
  ++ ((">>>>>>> ").data ++ theirsLabel ++ ['\n'])

/-- The file layout claim C8 describes, written from the claim's words: a
marker line with the ours label, the newline-terminated ours content, an
optional base section when diff3 style is requested and base content exists,
the separator line, the newline-terminated theirs content, and the closing
marker line with the theirs label. -/
def conflictFileLayoutSpec (base ours theirs : List Char)
    (oursLabel theirsLabel : List Char) (diff3Style : Bool) : List Char :=
  (("<<<<<<< ").data ++ oursLabel ++ ['\n'])
  ++ ensureNL ours
  ++ (if diff3Style && !base.isEmpty then
        ("||||||| base").data ++ ['\n'] ++ ensureNL base
      else [])
  ++ (("=======").data ++ ['\n'])
  ++ ensureNL theirs
  ++ ((">>>>>>> ").data ++ theirsLabel ++ ['\n'])

theorem ensureNL_getLast (s : List Char) : (ensureNL s).getLast? = some '\n' := by
  unfold ensureNL
  split
  · assumption
  · exact List.getLast?_concat _

theorem ensureNL_eq_or_append (s : List Char) :
    ensureNL s = s ∨ ensureNL s = s ++ ['\n'] := by
  unfold ensureNL
  split
  · exact Or.inl rfl
  · exact Or.inr rfl

/-! ## Three-way tree merge (pkg/merge/squash.go, ThreeWayMerger) -/

/-- A per-path merge conflict (Go `merge.Conflict`), reduced to the fields the
claims use: the path and the digests of the versions that exist. The Go struct
leaves absent digests at their zero value; the embedding uses `Option`. -/
structure Conflict where
  path : String
  baseSHA : Option ObjectHash
  ourSHA : Option ObjectHash
  theirSHA : Option ObjectHash
deriving DecidableEq

/-- Go `ThreeWayMerger.createConflict` (squash.go lines 371-394): records the
digests of whichever versions are present. Blob contents are read only for
later materialization and are not modelled. -/
def createConflict (path : String) (base ours theirs : Option TreeEntry) : Conflict :=
  { path := path
    baseSHA := base.map TreeEntry.sha
    ourSHA := ours.map TreeEntry.sha
    theirSHA := theirs.map TreeEntry.sha }

/-- Go `ThreeWayMerger.mergeEntry` (squash.go lines 310-368), the cascade of
cases 1-9 with the final fall-through `return ours, createConflict(...)`.
All comparisons are digest comparisons (`SHA().Equal`); the entry kind is
never inspected and no recursion into subtrees happens. -/
def mergeEntry (path : String) (base ours theirs : Option TreeEntry) :
    Option TreeEntry × Option Conflict :=
  match base, ours, theirs with
  | some b, some o, some t =>
    if b.sha = o.sha ∧ b.sha = t.sha then (some o, none)
    else if b.sha = t.sha ∧ b.sha ≠ o.sha then (some o, none)
    else if b.sha = o.sha ∧ b.sha ≠ t.sha then (some t, none)
    else if o.sha = t.sha then (some o, none)
    else (some o, some (createConflict path (some b) (some o) (some t)))
  | none, some o, some t =>
    if o.sha = t.sha then (some o, none)
    else (some o, some (createConflict path none (some o) (some t)))
  | some b, none, some t =>
    if b.sha = t.sha then (none, none)
    else (none, some (createConflict path (some b) none (some t)))
  | some b, some o, none =>
    if b.sha = o.sha then (none, none)
    else (some o, some (createConflict path (some b) (some o) none))
  | some b, none, none => (none, some (createConflict path (some b) none none))
  | none, some o, none => (some o, none)
  | none, none, some t => (some t, none)
  | none, none, none => (none, some (createConflict path none none none))

/-- Go `ThreeWayMerger.treeToMap` lookup: first entry with the given name. -/
def treeFind (t : List TreeEntry) (name : String) : Option TreeEntry :=
  t.find? (fun e => e.name == name)

/-- The union of the top-level names of the three trees. The Go code collects
them in a map and iterates it in unspecified order; the embedding keeps the
deduplicated concatenation order. -/
def unionPaths (base ours theirs : List TreeEntry) : List String :=
  (base.map TreeEntry.name ++ ours.map TreeEntry.name ++ theirs.map TreeEntry.name).dedup

/-- Go `ThreeWayMerger.mergeTrees` (squash.go lines 261-307): per-name decision
over the union of top-level names, collecting merged entries and conflicts.
Trees are entry lists; `tree.NewTree`'s re-sorting of the collected entries is
not modelled (it permutes entries only). -/
def mergeTrees (base ours theirs : List TreeEntry) :
    List TreeEntry × List Conflict :=
  let results := (unionPaths base ours theirs).map fun p =>
    mergeEntry p (treeFind base p) (treeFind ours p) (treeFind theirs p)
  (results.filterMap Prod.fst, results.filterMap Prod.snd)

/-- C2. The per-entry three-way decision follows the spec's resolution table on
the digests: all-equal keeps ours; base=theirs with ours changed keeps ours;
base=ours with theirs changed takes theirs; ours=theirs (including both added
the same) keeps ours; both added differently is an add/add conflict; added on
one side only takes that side; deleted on one side with the other side
unchanged is omitted; deleted on one side while the other side changed it, and
all-distinct modify/modify, are conflicts. -/
theorem mergeEntry_follows_resolution_table :
    (∀ p (b o t : TreeEntry), b.sha = o.sha → b.sha = t.sha →
      mergeEntry p (some b) (some o) (some t) = (some o, none)) ∧
    (∀ p (b o t : TreeEntry), b.sha = t.sha → b.sha ≠ o.sha →
      mergeEntry p (some b) (some o) (some t) = (some o, none)) ∧
    (∀ p (b o t : TreeEntry), b.sha = o.sha → b.sha ≠ t.sha →
      mergeEntry p (some b) (some o) (some t) = (some t, none)) ∧
    (∀ p (b : Option TreeEntry) (o t : TreeEntry), o.sha = t.sha →
      (mergeEntry p b (some o) (some t)).1 = some o ∧
      (mergeEntry p b (some o) (some t)).2 = none) ∧
    (∀ p (o t : TreeEntry), o.sha ≠ t.sha →
      (mergeEntry p none (some o) (some t)).2 =
        some (createConflict p none (some o) (some t))) ∧
    (∀ p (o : TreeEntry), mergeEntry p none (some o) none = (some o, none)) ∧
    (∀ p (t : TreeEntry), mergeEntry p none none (some t) = (some t, none)) ∧
    (∀ p (b t : TreeEntry), b.sha = t.sha →
      mergeEntry p (some b) none (some t) = (none, none)) ∧
    (∀ p (b o : TreeEntry), b.sha = o.sha →
      mergeEntry p (some b) (some o) none = (none, none)) ∧
    (∀ p (b t : TreeEntry), b.sha ≠ t.sha →
      (mergeEntry p (some b) none (some t)).2.isSome = true) ∧
    (∀ p (b o : TreeEntry), b.sha ≠ o.sha →
      (mergeEntry p (some b) (some o) none).2.isSome = true) ∧
    (∀ p (b o t : TreeEntry), b.sha ≠ o.sha → b.sha ≠ t.sha → o.sha ≠ t.sha →
      (mergeEntry p (some b) (some o) (some t)).2.isSome = true) := by
  refine ⟨?_, ?_, ?_, ?_, ?_, ?_, ?_, ?_, ?_, ?_, ?_, ?_⟩
  · intro p b o t h1 h2
    simp only [mergeEntry]
    rw [if_pos ⟨h1, h2⟩]
  · intro p b o t h1 h2
    simp only [mergeEntry]
    rw [if_neg (fun hc => h2 hc.1), if_pos ⟨h1, h2⟩]
  · intro p b o t h1 h2
    have h3 : o.sha ≠ t.sha := fun hc => h2 (h1.trans hc)
    simp only [mergeEntry]
    rw [if_neg (fun hc => h2 hc.2), if_neg (fun hc => h2 hc.1), if_pos ⟨h1, h2⟩]
  · intro p b o t h
    match b with
    | none => simp [mergeEntry, h]
    | some bb =>
      simp only [mergeEntry]
      by_cases hb : bb.sha = o.sha
      · rw [if_pos ⟨hb, hb.trans h⟩]; exact ⟨rfl, rfl⟩
      · have hbt : bb.sha ≠ t.sha := fun hc => hb (hc.trans h.symm)
        rw [if_neg (fun hc => hb hc.1), if_neg (fun hc => hbt hc.1),
          if_neg (fun hc => hb hc.1), if_pos h]
        exact ⟨rfl, rfl⟩
  · intro p o t h; simp [mergeEntry, h]
  · intro p o; rfl
  · intro p t; rfl
  · intro p b t h; simp [mergeEntry, h]
  · intro p b o h; simp [mergeEntry, h]
  · intro p b t h; simp [mergeEntry, h]
  · intro p b o h; simp [mergeEntry, h]
  · intro p b o t h1 h2 h3
    simp only [mergeEntry]
    rw [if_neg (fun hc => h1 hc.1), if_neg (fun hc => h2 hc.1),
      if_neg (fun hc => h1 hc.1), if_neg h3]
    rfl

/-- C3 counterexample. A mixed-kind pairing need not be a conflict: base and
ours hold the blob `d` at digest 1 while theirs holds a directory `d` at
digest 2; the merger takes theirs' directory wholesale and reports no
conflict, and never recurses into it. -/
theorem mergeTrees_mixed_kind_no_conflict :
    mergeTrees
      [{ kind := .regular, name := "d", sha := 1 }]
      [{ kind := .regular, name := "d", sha := 1 }]
      [{ kind := .directory, name := "d", sha := 2 }] =
    ([{ kind := .directory, name := "d", sha := 2 }], []) := by
  decide

/-- A tree entry with its kind replaced. -/
def TreeEntry.withKind (e : TreeEntry) (k : EntryKind) : TreeEntry :=
  { e with kind := k }

/-- The digest-level projection of `mergeEntry`'s decision: the digest of the
chosen entry (if any) and whether a conflict is reported. Proof device for
stating that the decision depends only on presence and digests. -/
def mergeShas (bs os ts : Option ObjectHash) : Option ObjectHash × Bool :=
  match bs, os, ts with
  | some b, some o, some t =>
    if b = o ∧ b = t then (some o, false)
    else if b = t ∧ b ≠ o then (some o, false)
    else if b = o ∧ b ≠ t then (some t, false)
    else if o = t then (some o, false)
    else (some o, true)
  | none, some o, some t => if o = t then (some o, false) else (some o, true)
  | some b, none, some t => if b = t then (none, false) else (none, true)
  | some b, some o, none => if b = o then (none, false) else (some o, true)
  | some _, none, none => (none, true)
  | none, some o, none => (some o, false)
  | none, none, some t => (some t, false)
  | none, none, none => (none, true)

theorem mergeEntry_decision_eq (p : String) (base ours theirs : Option TreeEntry) :
    ((mergeEntry p base ours theirs).1.map TreeEntry.sha,
      (mergeEntry p base ours theirs).2.isSome) =
    mergeShas (base.map TreeEntry.sha) (ours.map TreeEntry.sha)
      (theirs.map TreeEntry.sha) := by
  match base, ours, theirs with
  | some b, some o, some t =>
    simp only [mergeEntry, Option.map_some', mergeShas]
    split_ifs <;> rfl
  | none, some o, some t =>
    simp only [mergeEntry, Option.map_some', Option.map_none', mergeShas]
    split_ifs <;> rfl
  | some b, none, some t =>
    simp only [mergeEntry, Option.map_some', Option.map_none', mergeShas]
    split_ifs <;> rfl
  | some b, some o, none =>
    simp only [mergeEntry, Option.map_some', Option.map_none', mergeShas]
    split_ifs <;> rfl
  | some b, none, none => rfl
  | none, some o, none => rfl
  | none, none, some t => rfl
  | none, none, none => rfl

/-- C3 amended. The three-way tree merger never recurses into subtrees and
never inspects entry kinds: the decision at a name depends only on which sides
are present and on their digests, directories included, so a mixed-kind pairing
is a conflict exactly when the digest-based table row is one. Stated as kind
irrelevance: replacing the kinds of the three entries leaves the chosen
digest and the presence of a conflict unchanged. -/
theorem mergeEntry_kind_irrelevant (p : String) (base ours theirs : Option TreeEntry)
    (kb ko kt : EntryKind) :
    ((mergeEntry p (base.map (TreeEntry.withKind · kb))
        (ours.map (TreeEntry.withKind · ko))
        (theirs.map (TreeEntry.withKind · kt))).1.map TreeEntry.sha,
      (mergeEntry p (base.map (TreeEntry.withKind · kb))
        (ours.map (TreeEntry.withKind · ko))
        (theirs.map (TreeEntry.withKind · kt))).2.isSome) =
    ((mergeEntry p base ours theirs).1.map TreeEntry.sha,
      (mergeEntry p base ours theirs).2.isSome) := by
  have e1 : ∀ (x : Option TreeEntry) (k : EntryKind),
      (x.map (TreeEntry.withKind · k)).map TreeEntry.sha = x.map TreeEntry.sha := by
    intro x k; cases x <;> rfl
  rw [mergeEntry_decision_eq, mergeEntry_decision_eq, e1, e1, e1]

/-- C10. `MergeContent(base, ours, theirs)` succeeds iff at least two of the
three inputs are byte-equal; on success the result is ours when ours = theirs
or base = theirs, theirs when base = ours and ours differs from theirs;
pairwise-distinct inputs conflict with no content. -/
theorem mergeContent_two_equal_characterization :
    (∀ b o t : List Nat, (MergeContent b o t).isSome = true ↔ (o = t ∨ b = o ∨ b = t)) ∧
    (∀ b o t : List Nat, o = t → MergeContent b o t = some o) ∧
    (∀ b o t : List Nat, b = t → MergeContent b o t = some o) ∧
    (∀ b o t : List Nat, b = o → o ≠ t → MergeContent b o t = some t) ∧
    (∀ b o t : List Nat, b ≠ o → b ≠ t → o ≠ t → MergeContent b o t = none) := by
  refine ⟨?_, ?_, ?_, ?_, ?_⟩ <;> intro b o t
  · unfold MergeContent
    split
    · simp_all
    · split
      · simp_all
      · split
        · simp_all
        · simp_all
  · intro h; simp [MergeContent, h]
  · intro h
    unfold MergeContent
    split
    · simp_all
    · split
      · simp_all
      · simp [h]
  · intro h1 h2; simp [MergeContent, h1, h2]
  · intro h1 h2 h3; simp [MergeContent, h1, h2, h3]

/-- C8. A materialized conflicted file is the ours marker line, the
newline-terminated ours content, the optional base section (exactly when diff3
style is requested and base content exists), the separator line, the
newline-terminated theirs content and the closing theirs marker line; each
content section is newline-terminated and otherwise unchanged. -/
theorem createConflictMarkers_layout :
    (∀ base ours theirs oursLabel theirsLabel diff3Style,
      CreateConflictMarkers base ours theirs oursLabel theirsLabel diff3Style =
        conflictFileLayoutSpec base ours theirs oursLabel theirsLabel diff3Style) ∧
    (∀ s : List Char, (ensureNL s).getLast? = some '\n') ∧
    (∀ s : List Char, ensureNL s = s ∨ ensureNL s = s ++ ['\n']) := by
  refine ⟨fun _ _ _ _ _ _ => rfl, ensureNL_getLast, ensureNL_eq_or_append⟩

/-! ## Commit graph, ancestry and merge base (pkg/merge/mergebase.go) -/

/-- The commit DAG as the walker sees it: each digest's ordered parent list,
plus a bound on the number of commits. The bound is used as recursion fuel:
the Go recursion terminates because the repository is finite and the visited
set grows along every call chain, which the fuel mirrors. -/
structure CommitGraph where
  parents : ObjectHash → List ObjectHash
  size : Nat

/-- Go `MergeBaseCalculator.collectAncestors` (mergebase.go lines 94-115):
depth-first collection of the ancestor closure, the commit itself included,
with a visited check. -/
def collectAncestors (g : CommitGraph) :
    Nat → ObjectHash → List ObjectHash → List ObjectHash
  | 0, _, acc => acc
  | fuel + 1, c, acc =>
    if c ∈ acc then acc
    else (g.parents c).foldl (fun a p => collectAncestors g fuel p a) (c :: acc)

/-- Go `MergeBaseCalculator.getAncestors` (mergebase.go lines 87-91). -/
def getAncestors (g : CommitGraph) (c : ObjectHash) : List ObjectHash :=
  collectAncestors g (g.size + 1) c []

/-- Go `MergeBaseCalculator.IsAncestor` (mergebase.go lines 118-130):
membership of `a` in the ancestor closure of `b`. -/
def IsAncestor (g : CommitGraph) (a b : ObjectHash) : Bool :=
  (getAncestors g b).contains a

/-- Go `MergeBaseCalculator.CanFastForward` (mergebase.go lines 134-147):
equal digests short-circuit to true, otherwise the ancestry test decides. -/
def CanFastForward (g : CommitGraph) (a b : ObjectHash) : Bool :=
  a == b || IsAncestor g a b

/-- Go `FindMergeBase` (mergebase.go lines 31-74) intersects the two ancestor
closures and then returns "the first common ancestor" of a Go map iteration,
whose order is unspecified: every member of this intersection is a possible
return value. -/
def commonAncestors (g : CommitGraph) (a b : ObjectHash) : List ObjectHash :=
  (getAncestors g a).filter (fun s => (getAncestors g b).contains s)

theorem subset_collectAncestors (g : CommitGraph) :
    ∀ (fuel : Nat) (c : ObjectHash) (acc : List ObjectHash),
      acc ⊆ collectAncestors g fuel c acc := by
  intro fuel
  induction fuel with
  | zero => intro c acc; simp [collectAncestors]
  | succ n ih =>
    intro c acc
    simp only [collectAncestors]
    split
    · exact fun x hx => hx
    · have hfold : ∀ (l : List ObjectHash) (a0 : List ObjectHash),
          a0 ⊆ l.foldl (fun a p => collectAncestors g n p a) a0 := by
        intro l
        induction l with
        | nil => intro a0; simp
        | cons q qs ihq =>
          intro a0
          simp only [List.foldl_cons]
          exact (ih q a0).trans (ihq _)
      exact fun x hx => hfold (g.parents c) (c :: acc) (List.mem_cons_of_mem c hx)

theorem mem_getAncestors_self (g : CommitGraph) (c : ObjectHash) :
    c ∈ getAncestors g c := by
  unfold getAncestors
  simp only [collectAncestors]
  split
  · simp_all
  · have hfold : ∀ (l : List ObjectHash) (a0 : List ObjectHash),
        a0 ⊆ l.foldl (fun a p => collectAncestors g g.size p a) a0 := by
      intro l
      induction l with
      | nil => intro a0; simp
      | cons q qs ihq =>
        intro a0
        simp only [List.foldl_cons]
        exact (subset_collectAncestors g g.size q a0).trans (ihq _)
    exact hfold (g.parents c) [c] (List.mem_cons_self c [])

/-- C6. `can_ff(a, b)` coincides with `is_ancestor(a, b)` on every graph and
pair of commits, and `is_ancestor` holds reflexively (the ancestor closure of
a commit contains the commit itself). -/
theorem canFastForward_eq_isAncestor :
    (∀ (g : CommitGraph) (a b : ObjectHash), CanFastForward g a b = IsAncestor g a b) ∧
    (∀ (g : CommitGraph) (a : ObjectHash), IsAncestor g a a = true) := by
  have hself : ∀ (g : CommitGraph) (a : ObjectHash), IsAncestor g a a = true := by
    intro g a
    exact List.elem_eq_true_of_mem (mem_getAncestors_self g a)
  refine ⟨?_, hself⟩
  intro g a b
  by_cases h : a = b
  · subst h
    simp [CanFastForward, hself]
  · simp [CanFastForward, h]

/-- A linear three-commit history: commit 2 has parent 1, commit 1 has
parent 0 (commit 0 is initial). -/
def linearChainGraph : CommitGraph :=
  { parents := fun n => if n = 2 then [1] else if n = 1 then [0] else []
    size := 3 }

/-- C1 failing input. On the linear chain 0 <- 1 <- 2, the intersection of the
ancestor closures of 1 and 2 contains both 0 and 1, so `FindMergeBase(1, 2)`
(which returns an arbitrary member of that intersection, Go map order) may
return 0; yet 1 is a common ancestor of both and a proper descendant of 0, so
0 is not the lowest common ancestor of this linear topology. -/
theorem findMergeBase_linear_chain_bug :
    (commonAncestors linearChainGraph 1 2).contains 0 = true ∧
    (commonAncestors linearChainGraph 1 2).contains 1 = true ∧
    IsAncestor linearChainGraph 0 1 = true ∧
    IsAncestor linearChainGraph 0 2 = true ∧
    IsAncestor linearChainGraph 1 1 = true ∧
    IsAncestor linearChainGraph 1 2 = true ∧
    (0 : ObjectHash) ≠ 1 := by decide

/-! ## Merge pipeline: three-way merge commit and squash commit
(pkg/merge/squash.go, ThreeWayMerger.Merge / SquashMerger.Merge) -/

/-- Merge modes the claims exercise (Go `MergeMode`). -/
inductive MergeMode where
  | default
  | noCommit
deriving DecidableEq

/-- Conflict resolution strategies (Go `ConflictResolution`). -/
inductive ConflictResolution where
  | fail
  | ours
  | theirs
  | manual
deriving DecidableEq

/-- Go `MergeResult`, reduced to the fields the claims use. The source stores
the commit's digest; the embedding keeps the commit value itself. -/
structure MergeResult where
  success : Bool
  conflicts : List String
  commitObj : Option Commit
deriving DecidableEq

/-- The object store as the mergers read it: trees by digest. -/
structure Repo where
  trees : ObjectHash → List TreeEntry

/-- Go `ThreeWayMerger.createMergeCommit` (squash.go lines 432-481): writes the
merged tree, obtaining its digest, and creates the commit with parent list
[ours, theirs]. `writeTree` and `hashCommit` stand for the store's content
addressing of trees and commits. -/
def createMergeCommit (writeTree : List TreeEntry → ObjectHash)
    (hashCommit : Commit → ObjectHash) (ourCommit theirCommit : Commit)
    (mergedTree : List TreeEntry) : Commit :=
  { treeSHA := writeTree mergedTree
    parentSHAs := [hashCommit ourCommit, hashCommit theirCommit] }

/-- Go `ThreeWayMerger.Merge` (squash.go lines 170-258): read the three trees,
merge, return failure early on conflicts under the fail resolution, skip
commit creation in no-commit mode, otherwise create the merge commit. The
index update and the HEAD update (a TODO in the source) are not modelled. -/
def threeWayMergeRun (repo : Repo) (writeTree : List TreeEntry → ObjectHash)
    (hashCommit : Commit → ObjectHash) (baseCommit ourCommit theirCommit : Commit)
    (mode : MergeMode) (res : ConflictResolution) : MergeResult :=
  let m := mergeTrees (repo.trees baseCommit.treeSHA) (repo.trees ourCommit.treeSHA)
    (repo.trees theirCommit.treeSHA)
  if ¬m.2.isEmpty ∧ res = ConflictResolution.fail then
    { success := false, conflicts := m.2.map Conflict.path, commitObj := none }
  else if mode = MergeMode.noCommit then
    { success := m.2.isEmpty, conflicts := m.2.map Conflict.path, commitObj := none }
  else
    { success := m.2.isEmpty, conflicts := m.2.map Conflict.path,
      commitObj := some (createMergeCommit writeTree hashCommit ourCommit theirCommit m.1) }

/-- Go `SquashMerger.Merge` (squash.go lines 40-110): run the three-way merge
in no-commit mode; on success create a single-parent commit whose tree digest
the source takes from `theirCommit.TreeSHA` (its comment reads "Use the merged
tree"). -/
def squashMergeRun (repo : Repo) (writeTree : List TreeEntry → ObjectHash)
    (hashCommit : Commit → ObjectHash) (baseCommit ourCommit theirCommit : Commit)
    (res : ConflictResolution) : MergeResult :=
  let inner := threeWayMergeRun repo writeTree hashCommit baseCommit ourCommit theirCommit
    MergeMode.noCommit res
  if ¬inner.success then inner
  else
    { success := true
      conflicts := []
      commitObj := some { treeSHA := theirCommit.treeSHA
                          parentSHAs := [hashCommit ourCommit] } }

/-- C5. A three-way merge run that produces a commit (default mode) gives it
parent list exactly [ours (HEAD), theirs (MERGE_HEAD)] in that order, and its
root tree digest is the digest under which the merged tree of base, ours and
theirs was written to the object store. -/
theorem threeWayMerge_commit_parents_and_tree
    (repo : Repo) (writeTree : List TreeEntry → ObjectHash)
    (hashCommit : Commit → ObjectHash) (baseCommit ourCommit theirCommit : Commit)
    (res : ConflictResolution) (c : Commit)
    (hc : (threeWayMergeRun repo writeTree hashCommit baseCommit ourCommit theirCommit
        MergeMode.default res).commitObj = some c)
    (_hs : (threeWayMergeRun repo writeTree hashCommit baseCommit ourCommit theirCommit
        MergeMode.default res).success = true) :
    c.parentSHAs = [hashCommit ourCommit, hashCommit theirCommit] ∧
    c.treeSHA = writeTree (mergeTrees (repo.trees baseCommit.treeSHA)
      (repo.trees ourCommit.treeSHA) (repo.trees theirCommit.treeSHA)).1 := by
  simp only [threeWayMergeRun] at hc
  rw [if_neg (by simp : ¬(MergeMode.default = MergeMode.noCommit))] at hc
  split at hc
  · simp at hc
  · simp only [Option.some.injEq] at hc
    subst hc
    exact ⟨rfl, rfl⟩

/-- Concrete store for the C5 witness: every digest resolves to the empty
tree. -/
def trivialRepoW : Repo := { trees := fun _ => [] }

/-- Concrete commit for the C5 witness. -/
def commitW : Commit := { treeSHA := 0, parentSHAs := [] }

/-- Concrete tree writer for the C5 witness. -/
def writeTreeW : List TreeEntry → ObjectHash := fun _ => 5

/-- Concrete commit hasher for the C5 witness. -/
def hashCommitW : Commit → ObjectHash := fun _ => 7

/-- The commit the C5 witness run produces. -/
def mergeCommitW : Commit := { treeSHA := 5, parentSHAs := [7, 7] }

/-- Witness for C5 at a concrete merge of empty trees. -/
theorem threeWayMerge_commit_parents_and_tree_witness :
    mergeCommitW.parentSHAs = [hashCommitW commitW, hashCommitW commitW] ∧
    mergeCommitW.treeSHA = writeTreeW (mergeTrees (trivialRepoW.trees commitW.treeSHA)
      (trivialRepoW.trees commitW.treeSHA) (trivialRepoW.trees commitW.treeSHA)).1 :=
  threeWayMerge_commit_parents_and_tree trivialRepoW writeTreeW hashCommitW
    commitW commitW commitW ConflictResolution.fail mergeCommitW (by decide) (by decide)

/-- Concrete store for the C4 scenario: digest 10 is the tree [a -> blob 1],
digest 11 is the tree [a -> blob 2]. -/
def squashRepoW : Repo :=
  { trees := fun h =>
      if h = 10 then [{ kind := .regular, name := "a", sha := 1 }]
      else if h = 11 then [{ kind := .regular, name := "a", sha := 2 }]
      else [] }

/-- C4 base and theirs commit: tree 10 (file a at blob 1). -/
def squashBaseW : Commit := { treeSHA := 10, parentSHAs := [] }

/-- C4 our commit (HEAD): tree 11 (file a at blob 2; we changed a). -/
def squashOurW : Commit := { treeSHA := 11, parentSHAs := [] }

/-- C4 evidence. Base holds a@1, ours changed it to a@2, theirs left it at
a@1; the three-way merge result keeps ours, [a@2]. The squash merge succeeds
and creates a commit with exactly one parent, HEAD, but its tree digest is
10 — theirs' tree, holding [a@1], not the merge result — so our change is
dropped, contradicting the source's own "Use the merged tree" comment. -/
theorem squashMerge_uses_their_tree :
    squashMergeRun squashRepoW (fun _ => 12) (fun c => if c.treeSHA = 11 then 21 else 20)
        squashBaseW squashOurW squashBaseW ConflictResolution.fail =
      { success := true, conflicts := []
        commitObj := some { treeSHA := 10, parentSHAs := [21] } } ∧
    (mergeTrees (squashRepoW.trees 10) (squashRepoW.trees 11) (squashRepoW.trees 10)).1 =
      [{ kind := .regular, name := "a", sha := 2 }] ∧
    squashRepoW.trees 10 ≠ [{ kind := .regular, name := "a", sha := 2 }] := by
  decide

/-! ## Index conflict stages (pkg/index/conflict.go) -/

/-- An index entry (Go `index.Entry`), reduced to the fields the claims use.
The stage occupies two bits of the on-disk flags word (spec section 4.5),
hence `Fin 4`. Paths are kept normalized, so `Path.Normalize` is the
identity here. -/
structure IndexEntry where
  stage : Fin 4
  path : String
  blobHash : ObjectHash
deriving DecidableEq

/-- The in-memory index, reduced to its entry list. -/
structure Index where
  entries : List IndexEntry
deriving DecidableEq

/-- The index order (spec section 4.5: entries sorted by (path, stage)). -/
def entryLE (a b : IndexEntry) : Prop :=
  a.path < b.path ∨ (a.path = b.path ∧ a.stage ≤ b.stage)

instance : DecidableRel entryLE := fun a b => by
  unfold entryLE; infer_instance

/-- Modelled from the spec: the index re-establishes the (path, stage) sorted
order after every mutation (spec section 4.5 invariants); `Index.sort` itself
is not under src/. -/
def sortEntries (l : List IndexEntry) : List IndexEntry :=
  l.insertionSort entryLE

/-- Modelled from the spec: `Index.Remove` is not under src/; per spec section
4.5 `remove` drops the staged (stage-0) entry of the path; conflict stages are
handled separately by `RemoveConflict`. -/
def Index.Remove (idx : Index) (p : String) : Index :=
  { entries := idx.entries.filter (fun e => !(e.path == p && e.stage.val == 0)) }

/-- Go `Index.RemoveConflict` (conflict.go lines 72-85): drop every entry of
the path whose stage lies in 1..3. -/
def Index.RemoveConflict (idx : Index) (p : String) : Index :=
  { entries := idx.entries.filter
      (fun e => !(e.path == p && decide (1 ≤ e.stage.val) && decide (e.stage.val ≤ 3))) }

/-- Go `Index.AddConflict` (conflict.go lines 24-68): remove the stage-0 entry
and any previous conflict entries of the path, append a stage-1/2/3 entry for
each non-zero digest, and re-sort. -/
def Index.AddConflict (idx : Index) (p : String) (base ours theirs : ObjectHash) : Index :=
  let cleared := (idx.Remove p).RemoveConflict p
  { entries := sortEntries (cleared.entries
      ++ (if base ≠ 0 then [⟨1, p, base⟩] else [])
      ++ (if ours ≠ 0 then [⟨2, p, ours⟩] else [])
      ++ (if theirs ≠ 0 then [⟨3, p, theirs⟩] else [])) }

/-- Go `Index.IsConflicted` (conflict.go lines 138-146): some entry of the
path has a positive stage. -/
def Index.IsConflicted (idx : Index) (p : String) : Bool :=
  idx.entries.any (fun e => e.path == p && decide (0 < e.stage.val))

/-- Modelled from the spec: `Index.Add` is not under src/; per spec section 4.5
`add` replaces the stage-0 entry of the path and the sorted order is
re-established. -/
def Index.Add (idx : Index) (e : IndexEntry) : Index :=
  { entries := sortEntries
      ((idx.entries.filter (fun x => !(x.path == e.path && x.stage.val == 0))) ++ [e]) }

/-- Go `Index.ResolveConflict` (conflict.go lines 161-178): `none` models the
error return on a non-conflicted path; otherwise stages 1-3 are dropped and
the resolved stage-0 entry installed. -/
def Index.ResolveConflict (idx : Index) (p : String) (resolved : ObjectHash) :
    Option Index :=
  if idx.IsConflicted p then some ((idx.RemoveConflict p).Add ⟨0, p, resolved⟩)
  else none

/-- How many entries of the index sit at the given path and stage. -/
def stageCount (idx : Index) (p : String) (s : Nat) : Nat :=
  idx.entries.countP (fun e => e.path == p && e.stage.val == s)

theorem countP_sortEntries (l : List IndexEntry) (f : IndexEntry → Bool) :
    (sortEntries l).countP f = l.countP f :=
  (List.perm_insertionSort entryLE l).countP_eq f

theorem any_sortEntries (l : List IndexEntry) (f : IndexEntry → Bool) :
    (sortEntries l).any f = l.any f := by
  rw [Bool.eq_iff_iff]
  simp only [List.any_eq_true]
  constructor
  · rintro ⟨x, hx, hfx⟩
    exact ⟨x, (List.perm_insertionSort entryLE l).mem_iff.mp hx, hfx⟩
  · rintro ⟨x, hx, hfx⟩
    exact ⟨x, (List.perm_insertionSort entryLE l).mem_iff.mpr hx, hfx⟩

/-- An entry surviving both the stage-0 filter and the stage-1..3 filter
cannot sit at the filtered path: its two-bit stage would have to be outside
0..3. -/
theorem path_ne_of_both_conds (e : IndexEntry) (p : String)
    (h0 : (!(e.path == p && e.stage.val == 0)) = true)
    (h13 : (!(e.path == p && decide (1 ≤ e.stage.val) && decide (e.stage.val ≤ 3))) = true) :
    ¬(e.path = p) := by
  intro hp
  have hlt := e.stage.isLt
  by_cases h1 : e.stage.val = 0
  · simp [hp, h1] at h0
  · by_cases h2 : 1 ≤ e.stage.val ∧ e.stage.val ≤ 3
    · simp [hp, h2.1, h2.2] at h13
    · omega

theorem addConflict_cleared_path_ne (idx : Index) (p : String) :
    ∀ e ∈ ((idx.Remove p).RemoveConflict p).entries, ¬(e.path = p) := by
  intro e he
  simp only [Index.RemoveConflict, Index.Remove, List.mem_filter] at he
  exact path_ne_of_both_conds e p he.1.2 he.2

theorem resolve_filtered_path_ne (idx : Index) (p : String) :
    ∀ e ∈ ((idx.RemoveConflict p).entries.filter
      (fun x => !(x.path == p && x.stage.val == 0))), ¬(e.path = p) := by
  intro e he
  simp only [Index.RemoveConflict, List.mem_filter] at he
  exact path_ne_of_both_conds e p he.2 he.1.2

/-- C7. After `AddConflict(path, base, ours, theirs)` the index holds, for
that path, exactly one stage-1 entry iff base is non-zero, one stage-2 entry
iff ours is non-zero, one stage-3 entry iff theirs is non-zero, and no stage-0
entry, and the path is conflicted exactly when some stage was installed.
After `ResolveConflict(path, digest)` on a conflicted path, every stage-1..3
entry of the path is gone and a single stage-0 entry with the digest is
installed, so the path is no longer conflicted. -/
theorem addConflict_resolveConflict_stage_invariants :
    (∀ (idx : Index) (p : String) (b o t : ObjectHash),
      stageCount (idx.AddConflict p b o t) p 1 = (if b ≠ 0 then 1 else 0) ∧
      stageCount (idx.AddConflict p b o t) p 2 = (if o ≠ 0 then 1 else 0) ∧
      stageCount (idx.AddConflict p b o t) p 3 = (if t ≠ 0 then 1 else 0) ∧
      stageCount (idx.AddConflict p b o t) p 0 = 0 ∧
      ((idx.AddConflict p b o t).IsConflicted p = true ↔ (b ≠ 0 ∨ o ≠ 0 ∨ t ≠ 0))) ∧
    (∀ (idx : Index) (p : String) (d : ObjectHash),
      idx.IsConflicted p = true →
      ∃ j, idx.ResolveConflict p d = some j ∧
        stageCount j p 0 = 1 ∧ stageCount j p 1 = 0 ∧ stageCount j p 2 = 0 ∧
        stageCount j p 3 = 0 ∧ (⟨0, p, d⟩ : IndexEntry) ∈ j.entries ∧
        j.IsConflicted p = false) := by
  constructor
  · intro idx p b o t
    have hcl : ∀ s : Nat,
        (((idx.Remove p).RemoveConflict p).entries).countP
          (fun e => e.path == p && e.stage.val == s) = 0 := by
      intro s
      refine List.countP_eq_zero.mpr ?_
      intro e he hpred
      simp only [Bool.and_eq_true, beq_iff_eq] at hpred
      exact addConflict_cleared_path_ne idx p e he hpred.1
    have hclany : (((idx.Remove p).RemoveConflict p).entries).any
        (fun e => e.path == p && decide (0 < e.stage.val)) = false := by
      rw [List.any_eq_false]
      intro e he hpred
      simp only [Bool.and_eq_true, beq_iff_eq] at hpred
      exact addConflict_cleared_path_ne idx p e he hpred.1
    by_cases hb : b = 0 <;> by_cases ho : o = 0 <;> by_cases ht : t = 0 <;>
      refine ⟨?_, ?_, ?_, ?_, ?_⟩ <;>
      simp [stageCount, Index.AddConflict, Index.IsConflicted, countP_sortEntries,
        any_sortEntries, List.countP_append, List.any_append, hcl, hclany,
        hb, ho, ht, List.countP_cons, List.countP_nil] <;> decide
  · intro idx p d hconf
    have hfil : ∀ s : Nat,
        (((idx.RemoveConflict p).entries.filter
          (fun x => !(x.path == p && x.stage.val == 0))).countP
          (fun e => e.path == p && e.stage.val == s)) = 0 := by
      intro s
      refine List.countP_eq_zero.mpr ?_
      intro e he hpred
      simp only [Bool.and_eq_true, beq_iff_eq] at hpred
      exact resolve_filtered_path_ne idx p e he hpred.1
    have hfilany : ((idx.RemoveConflict p).entries.filter
        (fun x => !(x.path == p && x.stage.val == 0))).any
        (fun e => e.path == p && decide (0 < e.stage.val)) = false := by
      rw [List.any_eq_false]
      intro e he hpred
      simp only [Bool.and_eq_true, beq_iff_eq] at hpred
      exact resolve_filtered_path_ne idx p e he hpred.1
    refine ⟨(idx.RemoveConflict p).Add ⟨0, p, d⟩, ?_, ?_, ?_, ?_, ?_, ?_, ?_⟩
    · simp [Index.ResolveConflict, hconf]
    · simp only [stageCount, Index.Add]
      rw [countP_sortEntries, List.countP_append, hfil]
      simp
    · simp only [stageCount, Index.Add]
      rw [countP_sortEntries, List.countP_append, hfil]
      simp
    · simp only [stageCount, Index.Add]
      rw [countP_sortEntries, List.countP_append, hfil]
      simp
    · simp only [stageCount, Index.Add]
      rw [countP_sortEntries, List.countP_append, hfil]
      simp
    · simp only [Index.Add]
      exact (List.perm_insertionSort entryLE _).mem_iff.mpr
        (List.mem_append_right _ (List.mem_singleton_self _))
    · simp only [Index.Add, Index.IsConflicted]
      rw [any_sortEntries, List.any_append, hfilany]
      simp

/-! ## File history filter (pkg/history/file_walker.go, tree_search.go) -/

/-- The stores the history walker reads: trees and commits by digest. Store
read errors are not modelled (reads are total). -/
structure HistRepo where
  trees : ObjectHash → List TreeEntry
  commits : ObjectHash → Commit

/-- Go `findFileInTreeRecursive` (tree_search.go lines 52-111): walk component
by component; the first entry with the target name decides; a file at the
final component yields its digest; a directory at the final component, a
non-directory with components remaining, an empty component or a missing name
yield not-found. -/
def findFileInTreeRecursive (repo : HistRepo) :
    List TreeEntry → List String → Option ObjectHash
  | _, [] => none
  | t, name :: rest =>
    if name = "" then none
    else
      match treeFind t name with
      | none => none
      | some e =>
        match rest with
        | [] => if e.IsFile then some e.sha else none
        | _ :: _ =>
          if e.IsDirectory then findFileInTreeRecursive repo (repo.trees e.sha) rest
          else none

/-- Go `FindFileInTree` (tree_search.go lines 27-49). `filepath.Clean` and the
leading-slash trim are not modelled: paths arrive already clean. -/
def FindFileInTree (repo : HistRepo) (t : List TreeEntry) (filePath : String) :
    Option ObjectHash :=
  if filePath = "" ∨ filePath = "." then none
  else findFileInTreeRecursive repo t (filePath.splitOn "/")

/-- Go `findFileInCommit` (file_walker.go lines 142-159). -/
def findFileInCommit (repo : HistRepo) (c : Commit) (filePath : String) :
    Option ObjectHash :=
  FindFileInTree repo (repo.trees c.treeSHA) filePath

/-- Go `commitModifiesFile` (file_walker.go lines 80-139): a parentless commit
counts iff the file resolves in its tree; otherwise some parent must show the
file added, deleted, or changed in digest. -/
def commitModifiesFile (repo : HistRepo) (c : Commit) (filePath : String) : Bool :=
  let currentBlob := findFileInCommit repo c filePath
  if c.parentSHAs.isEmpty then currentBlob.isSome
  else c.parentSHAs.any fun psha =>
    let parentBlob := findFileInCommit repo (repo.commits psha) filePath
    (currentBlob.isSome && !parentBlob.isSome)
    || (!currentBlob.isSome && parentBlob.isSome)
    || (currentBlob.isSome && parentBlob.isSome && currentBlob != parentBlob)

/-- Go `FilterByFile` (file_walker.go lines 37-72); the empty path returns the
input unchanged. Cancellation is not modelled. -/
def FilterByFile (repo : HistRepo) (commits : List Commit) (filePath : String) :
    List Commit :=
  if filePath = "" then commits
  else commits.filter fun c => commitModifiesFile repo c filePath

/-- C9's retention rule, written from the claim's words: keep a commit iff the
digest its tree resolves at the path differs from at least one parent's
(absence counting as a distinct value, covering appearance and disappearance),
presence sufficing for a parentless commit. -/
def retainsCommitSpec (repo : HistRepo) (c : Commit) (filePath : String) : Bool :=
  if c.parentSHAs.isEmpty then (findFileInCommit repo c filePath).isSome
  else c.parentSHAs.any fun psha =>
    findFileInCommit repo (repo.commits psha) filePath !=
      findFileInCommit repo c filePath

theorem commitModifiesFile_eq_spec (repo : HistRepo) (c : Commit) (filePath : String) :
    commitModifiesFile repo c filePath = retainsCommitSpec repo c filePath := by
  simp only [commitModifiesFile, retainsCommitSpec]
  split
  · rfl
  · congr 1
    funext psha
    cases hcur : findFileInCommit repo c filePath with
    | none =>
      cases hpar : findFileInCommit repo (repo.commits psha) filePath with
      | none => rfl
      | some b => rfl
    | some a =>
      cases hpar : findFileInCommit repo (repo.commits psha) filePath with
      | none => rfl
      | some b =>
        show (true && !true || (!true && true || true && true && (some a != some b))) =
          (some b != some a)
        by_cases hab : a = b
        · subst hab; rfl
        · have h1 : (some a != some b) = true := by simp [hab]
          have h2 : (some b != some a) = true := by simp [Ne.symm hab]
          rw [h1, h2]
          rfl

/-- C9. Filtering a commit sequence by a non-empty path retains exactly the
commits whose resolved digest at the path differs from at least one parent's
(appearance and disappearance included; presence suffices for a parentless
commit), and path resolution walks trees component by component, a file entry
with components remaining yielding not-found. -/
theorem filterByFile_retains_modifying_commits :
    (∀ (repo : HistRepo) (commits : List Commit) (filePath : String),
      filePath ≠ "" →
      FilterByFile repo commits filePath =
        commits.filter (fun c => retainsCommitSpec repo c filePath)) ∧
    (∀ (repo : HistRepo) (t : List TreeEntry) (name : String) (rest : List String)
        (e : TreeEntry), rest ≠ [] → treeFind t name = some e → e.IsFile = true →
      findFileInTreeRecursive repo t (name :: rest) = none) := by
  constructor
  · intro repo commits filePath hne
    unfold FilterByFile
    rw [if_neg hne]
    exact List.filter_congr fun c _ => commitModifiesFile_eq_spec repo c filePath
  · intro repo t name rest e hrest hfind hfile
    have hdir : e.IsDirectory = false := by
      cases e with
      | mk k n s =>
        cases k <;> simp [TreeEntry.IsFile, TreeEntry.IsDirectory] at hfile ⊢
    obtain ⟨r, rs, rfl⟩ := List.exists_cons_of_ne_nil hrest
    by_cases hname : name = ""
    · simp [findFileInTreeRecursive, hname]
    · simp [findFileInTreeRecursive, hname, hfind, hdir]

end SC
